import Mathlib

/-!
Shallow embedding of src/client.py (class ClientDatabase), a psycopg2-backed
CRUD layer over two PostgreSQL tables:

  client       (client_id serial PK, first_name, last_name, email,
                CHECK email ~ regex)
  client_phone (client_phone_id serial PK, client_id references client,
                phone, CHECK phone ~ regex)

The embedding models the connection as a pair of database states (last
committed state, current in-transaction state) plus the two serial
sequences, which in PostgreSQL are non-transactional: a rolled-back insert
still consumes its sequence value.  Each Python method becomes a Lean
function on this connection state; a psycopg2 CheckViolation caught by the
code becomes an explicit result constructor, and one that the code does not
catch becomes an Except.error.
-/

/-- Regular expressions over characters, with Boolean character classes.
Used to embed the two CHECK-constraint regexes of create_db_schema. -/
inductive RE where
  | eps : RE
  | cls (p : Char → Bool) : RE
  | seq (a b : RE) : RE
  | alt (a b : RE) : RE
  | star (r : RE) : RE

/-- Does the regex accept the empty string? -/
def RE.nullable : RE → Bool
  | .eps => true
  | .cls _ => false
  | .seq a b => a.nullable && b.nullable
  | .alt a b => a.nullable || b.nullable
  | .star _ => true

/-- The regex matching nothing at all. -/
def RE.empty : RE := .cls (fun _ => false)

/-- Brzozowski derivative of a regex by one character. -/
def RE.deriv : RE → Char → RE
  | .eps, _ => RE.empty
  | .cls p, c => if p c then .eps else RE.empty
  | .seq a b, c =>
      if a.nullable then .alt (.seq (a.deriv c) b) (b.deriv c)
      else .seq (a.deriv c) b
  | .alt a b, c => .alt (a.deriv c) (b.deriv c)
  | .star r, c => .seq (r.deriv c) (.star r)

/-- Full-string regex matching by iterated derivatives (the CHECK regexes
are anchored with both a caret and a dollar, so matching is whole-string). -/
def RE.matchList : RE → List Char → Bool
  | r, [] => r.nullable
  | r, c :: cs => (r.deriv c).matchList cs

/-- Whole-string match of a regex against a String. -/
def reMatch (r : RE) (s : String) : Bool := r.matchList s.data

/-- Zero-or-one occurrence, the regex piece written X brace 0,1 brace. -/
def RE.opt (r : RE) : RE := .alt .eps r

/-- One-or-more occurrences, the regex piece written X+. -/
def RE.plus (r : RE) : RE := .seq r (.star r)

/-- The backslash-w class of the PostgreSQL regexes: word characters
(letters, digits, underscore; the inputs of interest are ASCII). -/
def wordCharB (c : Char) : Bool := c.isAlpha || c.isDigit || c == '_'

/-- The class of word characters, dash and dot used on both sides of the
at-sign in the email CHECK regex. -/
def emailLocalCls (c : Char) : Bool := wordCharB c || c == '-' || c == '.'

/-- The backslash-s class: whitespace characters. -/
def spaceCharB (c : Char) : Bool :=
  c == ' ' || c == '\t' || c == '\n' || c == '\r' || c == '\x0b' || c == '\x0c'

/-- The trailing class of the phone CHECK regex: dash, whitespace, dot,
slash or digit, repeated any number of times. -/
def phoneTailCls (c : Char) : Bool :=
  c == '-' || spaceCharB c || c == '.' || c == '/' || c.isDigit

/-- The email CHECK constraint regex of create_db_schema:
caret [w-.]+ at [w-.]+ dot [w]+ dollar. -/
def emailRe : RE :=
  .seq (RE.plus (.cls emailLocalCls))
    (.seq (.cls (· == '@'))
      (.seq (RE.plus (.cls emailLocalCls))
        (.seq (.cls (· == '.'))
          (RE.plus (.cls wordCharB)))))

/-- One to four digits, the regex piece d brace 1,4 brace. -/
def digits1to4 : RE :=
  .seq (.cls Char.isDigit)
    (.seq (RE.opt (.cls Char.isDigit))
      (.seq (RE.opt (.cls Char.isDigit))
        (RE.opt (.cls Char.isDigit))))

/-- The phone CHECK constraint regex of create_db_schema: an optional plus
sign, an optional digit, an optional opening parenthesis, one to four
digits, an optional closing parenthesis, then dashes, whitespace, dots,
slashes and digits. -/
def phoneRe : RE :=
  .seq (RE.opt (.cls (· == '+')))
    (.seq (RE.opt (.cls Char.isDigit))
      (.seq (RE.opt (.cls (· == '(')))
        (.seq digits1to4
          (.seq (RE.opt (.cls (· == ')')))
            (.star (.cls phoneTailCls))))))

/-- Does a phone string satisfy the phone CHECK constraint? -/
def phoneOk (s : String) : Bool := reMatch phoneRe s

/-- Does an email string satisfy the email CHECK constraint? -/
def emailOk (s : String) : Bool := reMatch emailRe s

/-- A NULL email passes the CHECK constraint (SQL CHECK accepts unknown);
a non-null email must match the regex. -/
def emailOkOpt : Option String → Bool
  | none => true
  | some s => emailOk s

/-- A row of the client table. -/
structure ClientRow where
  client_id : Nat
  first_name : String
  last_name : String
  email : Option String
deriving DecidableEq, Repr

/-- A row of the client_phone table. -/
structure PhoneRow where
  client_phone_id : Nat
  client_id : Nat
  phone : String
deriving DecidableEq, Repr

/-- A database state: the two tables, in insertion order. -/
structure DB where
  clients : List ClientRow
  phones : List PhoneRow
deriving DecidableEq, Repr

/-- A psycopg2 connection: the last committed database state, the state as
seen inside the current transaction, and the two serial sequences.  The
sequences sit outside the DB states because PostgreSQL sequences are
non-transactional: a rollback does not give identifiers back. -/
structure Conn where
  committed : DB
  current : DB
  next_client_id : Nat
  next_phone_id : Nat
deriving DecidableEq, Repr

/-- conn.commit(): the current transaction state becomes durable. -/
def Conn.commit (c : Conn) : Conn := { c with committed := c.current }

/-- conn.rollback(): the current transaction state is discarded. -/
def Conn.rollback (c : Conn) : Conn := { c with current := c.committed }

/-- Referential integrity: every phone row references an existing client. -/
def refIntegrity (db : DB) : Prop :=
  ∀ p ∈ db.phones, ∃ c ∈ db.clients, c.client_id = p.client_id

/-- The phone strings stored for one client, in insertion order. -/
def clientPhones (db : DB) (cid : Nat) : List String :=
  (db.phones.filter (fun p => p.client_id == cid)).map (fun p => p.phone)

/-- ClientDatabase._insert_client_phone: one INSERT into client_phone.  If
the phone fails its CHECK constraint, psycopg2 raises CheckViolation, the
except branch prints a message and calls self.conn.rollback(), discarding
the whole current transaction, not just this statement.  Either way the
phone sequence value is consumed. -/
def insert_client_phone (conn : Conn) (cid : Nat) (phone : String) : Conn :=
  if phoneOk phone then
    { conn with
        current := { conn.current with
          phones := conn.current.phones ++
            [⟨conn.next_phone_id, cid, phone⟩] }
        next_phone_id := conn.next_phone_id + 1 }
  else
    { conn.rollback with next_phone_id := conn.next_phone_id + 1 }

/-- The for-loop of add_client over the supplied phone list. -/
def insertPhonesLoop (conn : Conn) (cid : Nat) : List String → Conn
  | [] => conn
  | p :: ps => insertPhonesLoop (insert_client_phone conn cid p) cid ps

/-- The phone_list argument of add_client as the Python code discriminates
it: None, a non-None value that is not an Iterable, or an iterable of
phone strings. -/
inductive PhoneArg where
  | noneArg : PhoneArg
  | notIterable : PhoneArg
  | list (ps : List String) : PhoneArg
deriving DecidableEq, Repr

/-- Outcome of add_client: the returned client_id, or the caught
CheckViolation on the email (the code prints a message, rolls back and
returns None, so the caller gets no identifier). -/
inductive AddClientResult where
  | ok (client_id : Nat) : AddClientResult
  | emailValidationError : AddClientResult
deriving DecidableEq, Repr

/-- ClientDatabase.add_client: INSERT the client row RETURNING client_id,
commit; on a CheckViolation of the email constraint roll back and return
None.  Then, when phone_list is not None and is an Iterable, run
_insert_client_phone for each entry and commit once more at the end. -/
def add_client (conn : Conn) (first_name last_name : String)
    (email : Option String) (phone_list : PhoneArg) : Conn × AddClientResult :=
  if emailOkOpt email then
    let cid := conn.next_client_id
    let conn1 : Conn :=
      { conn with
          current := { conn.current with
            clients := conn.current.clients ++
              [⟨cid, first_name, last_name, email⟩] }
          next_client_id := cid + 1 }
    let conn2 := conn1.commit
    match phone_list with
    | .list ps => ((insertPhonesLoop conn2 cid ps).commit, .ok cid)
    | _ => (conn2, .ok cid)
  else
    ({ conn.rollback with next_client_id := conn.next_client_id + 1 },
      .emailValidationError)

/-- ClientDatabase.add_client_phone: one _insert_client_phone, then commit.
(The foreign-key violation possible for an unknown client_id is not caught
by the code and is outside the claims modelled here.) -/
def add_client_phone (conn : Conn) (cid : Nat) (phone : String) : Conn :=
  (insert_client_phone conn cid phone).commit

/-- A backend error that the code does not catch and lets propagate. -/
inductive PgError where
  | checkViolation : PgError
deriving DecidableEq, Repr

/-- ClientDatabase.update_client: UPDATE the three mutable fields of the
matching row, then commit.  The email CHECK constraint is evaluated on
every updated row; a violation raises an uncaught CheckViolation (there is
no try/except here), so nothing is committed.  With no matching row the
UPDATE affects zero rows and no constraint fires. -/
def update_client (conn : Conn) (cid : Nat)
    (new_first_name new_last_name : String) (new_email : Option String) :
    Except PgError Conn :=
  if conn.current.clients.any (fun c => c.client_id == cid) &&
      !(emailOkOpt new_email) then
    .error .checkViolation
  else
    .ok (Conn.commit
      { conn with
          current := { conn.current with
            clients := conn.current.clients.map (fun c =>
              if c.client_id == cid then
                { c with
                    first_name := new_first_name
                    last_name := new_last_name
                    email := new_email }
              else c) } })

/-- ClientDatabase.del_client_phone: DELETE from client_phone by
client_phone_id, then commit. -/
def del_client_phone (conn : Conn) (phone_id : Nat) : Conn :=
  Conn.commit
    { conn with
        current := { conn.current with
          phones := conn.current.phones.filter
            (fun p => !(p.client_phone_id == phone_id)) } }

/-- ClientDatabase.del_client: DELETE from client_phone by client_id, then
DELETE from client by client_id, then one commit. -/
def del_client (conn : Conn) (cid : Nat) : Conn :=
  Conn.commit
    { conn with
        current :=
          { clients := conn.current.clients.filter
              (fun c => !(c.client_id == cid))
            phones := conn.current.phones.filter
              (fun p => !(p.client_id == cid)) } }

/-- Python str.lower restricted to the characters that can occur here:
ASCII letters and the Cyrillic letters of the search-key table. -/
def pyLowerChar (c : Char) : Char :=
  if 'A' ≤ c ∧ c ≤ 'Z' then Char.ofNat (c.toNat + 32)
  else if 'А' ≤ c ∧ c ≤ 'Я' then Char.ofNat (c.toNat + 32)
  else if c = 'Ё' then 'ё'
  else c

/-- Python field_name.lower(). -/
def pyLower (s : String) : String := ⟨s.data.map pyLowerChar⟩

/-- ClientDatabase.fields_to_search: the class-level mapping from search
keys (Russian words in the source) to database column names. -/
def fields_to_search : List (String × String) :=
  [("имя", "first_name"), ("фамилия", "last_name"),
   ("email", "email"), ("телефон", "phone")]

/-- Dictionary lookup fields_to_search[key]; none models the KeyError. -/
def lookupField (key : String) : Option String :=
  (fields_to_search.find? (fun kv => kv.1 == key)).map (fun kv => kv.2)

/-- The rows a given client contributes to the LEFT JOIN of client with
client_phone on client_id: one row per matching phone, or a single row
with a NULL phone side when the client has none. -/
def joinRowsFor (db : DB) (c : ClientRow) : List (ClientRow × Option PhoneRow) :=
  match db.phones.filter (fun p => p.client_id == c.client_id) with
  | [] => [(c, none)]
  | ps => ps.map (fun p => (c, some p))

/-- The full row list of client LEFT JOIN client_phone ON client_id. -/
def leftJoinRows (db : DB) : List (ClientRow × Option PhoneRow) :=
  db.clients.flatMap (joinRowsFor db)

/-- The SQL value of the searched column on one joined row; none is NULL.
Only the four column names of fields_to_search can reach this point. -/
def colValue (col : String) (c : ClientRow) (p : Option PhoneRow) :
    Option String :=
  if col == "first_name" then some c.first_name
  else if col == "last_name" then some c.last_name
  else if col == "email" then c.email
  else if col == "phone" then p.map (fun r => r.phone)
  else none

/-- ClientDatabase.find_client: look the lowercased field name up in
fields_to_search (on KeyError print a message and return None), then run
SELECT DISTINCT of the four client columns over the LEFT JOIN filtered by
column = value (a NULL column never equals the value), and fetchall. -/
def find_client (db : DB) (field_name field_value : String) :
    Option (List ClientRow) :=
  match lookupField (pyLower field_name) with
  | none => none
  | some col =>
      some ((((leftJoinRows db).filter
        (fun r => colValue col r.1 r.2 == some field_value)).map
          (fun r => r.1)).dedup)

/-- SQL string_agg with separator comma-space: NULL on an empty group. -/
def string_agg (ps : List String) : Option String :=
  match ps with
  | [] => none
  | _ => some (String.intercalate ", " ps)

/-- ClientDatabase.print_all_clients: SELECT client columns plus
string_agg(phone) FROM client LEFT JOIN client_phone GROUP BY the client
columns; one output tuple per group, printed.  Embedded as the list of
tuples produced: group keys are the distinct client tuples among the join
rows, the aggregate collects the non-NULL phone sides of each group. -/
def print_all_clients (db : DB) :
    List (Nat × String × String × Option String × Option String) :=
  let rows := leftJoinRows db
  ((rows.map (fun r => r.1)).dedup).map (fun c =>
    (c.client_id, c.first_name, c.last_name, c.email,
      string_agg (((rows.filter (fun r => r.1 == c)).filterMap
        (fun r => r.2)).map (fun p => p.phone))))

/-- Modelled from the spec: the single-commit variant of add_client that
section 4.1 describes, in which the client insert and the phone loop share
one transaction and all successful sub-operations commit together in one
commit at the end of phone processing.  Identical to add_client except
that no commit runs between the client insert and the phone loop. -/
def add_client_single_commit (conn : Conn) (first_name last_name : String)
    (email : Option String) (phone_list : PhoneArg) : Conn × AddClientResult :=
  if emailOkOpt email then
    let cid := conn.next_client_id
    let conn1 : Conn :=
      { conn with
          current := { conn.current with
            clients := conn.current.clients ++
              [⟨cid, first_name, last_name, email⟩] }
          next_client_id := cid + 1 }
    match phone_list with
    | .list ps => ((insertPhonesLoop conn1 cid ps).commit, .ok cid)
    | _ => (conn1.commit, .ok cid)
  else
    ({ conn.rollback with next_client_id := conn.next_client_id + 1 },
      .emailValidationError)

/-- The phone strings of a batch that survive add_client's loop: a failing
phone rolls the uncommitted prefix back, so only entries after the last
invalid one remain. -/
def survivingPhones (ps : List String) : List String :=
  ps.foldl (fun acc p => if phoneOk p then acc ++ [p] else []) []

/-- Exact-equality match of a client against the searched column: the
predicate find_client's WHERE clause expresses once the column name is
fixed.  For the phone column a client matches when one of its phone rows
carries the value. -/
def fieldMatches (db : DB) (col : String) (v : String) (c : ClientRow) : Prop :=
  (col = "first_name" ∧ c.first_name = v) ∨
  (col = "last_name" ∧ c.last_name = v) ∨
  (col = "email" ∧ c.email = some v) ∨
  (col = "phone" ∧ ∃ p ∈ db.phones, p.client_id = c.client_id ∧ p.phone = v)

/-- A connection over the empty database, all sequences starting at 1. -/
def emptyConn : Conn := ⟨⟨[], []⟩, ⟨[], []⟩, 1, 1⟩

/-- A one-client database used in concrete instantiations. -/
def dbIvan : DB := ⟨[⟨1, "Ivan", "Ivanov", none⟩], []⟩

/-- A quiescent connection holding one committed client, used in concrete
instantiations. -/
def connA : Conn :=
  ⟨⟨[⟨1, "A", "B", none⟩], []⟩, ⟨[⟨1, "A", "B", none⟩], []⟩, 2, 1⟩

/-- A two-client database in which the first client owns two phone rows
with the same phone string, used in concrete instantiations. -/
def dbTwo : DB :=
  ⟨[⟨1, "V", "P", none⟩, ⟨2, "V", "S", none⟩],
   [⟨1, 1, "555-1234"⟩, ⟨2, 1, "555-1234"⟩, ⟨3, 2, "111"⟩]⟩

/-- A quiescent connection with two committed clients and their phones,
used in concrete instantiations. -/
def connDel : Conn :=
  ⟨⟨[⟨1, "A", "B", none⟩, ⟨2, "C", "D", none⟩], [⟨1, 1, "123"⟩, ⟨2, 2, "456"⟩]⟩,
   ⟨[⟨1, "A", "B", none⟩, ⟨2, "C", "D", none⟩], [⟨1, 1, "123"⟩, ⟨2, 2, "456"⟩]⟩,
   3, 3⟩

/-! ## General lemmas about the embedded operations -/

/-- Invariant of add_client's phone loop.  Starting from a transaction
whose only uncommitted work is a list of phone rows for the new client,
the loop never commits, and it ends with the uncommitted phone rows
carrying exactly the phone strings computed by the fold that appends each
valid phone and drops everything pending at each invalid one (the code's
rollback discards the whole open transaction). -/
theorem insertPhonesLoop_spec (cid : Nat) (ps : List String) :
    ∀ (conn : Conn) (pend : List PhoneRow),
      conn.current = { conn.committed with phones := conn.committed.phones ++ pend } →
      (∀ r ∈ pend, r.client_id = cid) →
      ∃ pend' : List PhoneRow,
        (insertPhonesLoop conn cid ps).committed = conn.committed ∧
        (insertPhonesLoop conn cid ps).current =
          { conn.committed with phones := conn.committed.phones ++ pend' } ∧
        (∀ r ∈ pend', r.client_id = cid) ∧
        pend'.map (fun r => r.phone) =
          ps.foldl (fun acc p => if phoneOk p then acc ++ [p] else [])
            (pend.map (fun r => r.phone)) := by
  induction ps with
  | nil =>
      intro conn pend hcur hcid
      exact ⟨pend, rfl, hcur, hcid, rfl⟩
  | cons p ps ih =>
      intro conn pend hcur hcid
      by_cases hp : phoneOk p = true
      · obtain ⟨pend', h1, h2, h3, h4⟩ :=
          ih (insert_client_phone conn cid p)
            (pend ++ [⟨conn.next_phone_id, cid, p⟩])
            (by simp [insert_client_phone, hp, hcur, Conn.rollback])
            (by
              intro r hr
              rcases List.mem_append.mp hr with h | h
              · exact hcid r h
              · simp only [List.mem_singleton] at h
                subst h
                rfl)
        refine ⟨pend', ?_, ?_, h3, ?_⟩
        · simpa [insertPhonesLoop, insert_client_phone, hp] using h1
        · simpa [insertPhonesLoop, insert_client_phone, hp] using h2
        · rw [h4]
          simp [hp]
      · obtain ⟨pend', h1, h2, h3, h4⟩ :=
          ih (insert_client_phone conn cid p) []
            (by simp [insert_client_phone, hp, Conn.rollback])
            (by intro r hr; simp at hr)
        refine ⟨pend', ?_, ?_, h3, ?_⟩
        · simpa [insertPhonesLoop, insert_client_phone, hp, Conn.rollback] using h1
        · simpa [insertPhonesLoop, insert_client_phone, hp, Conn.rollback] using h2
        · rw [h4]
          simp [hp]

/-- Behavior of add_client on an iterable phone list once the email has
passed its constraint: the client row is committed, then the phone loop
runs in a fresh transaction, and the final commit makes durable exactly
the phone rows surviving the rollbacks, whose strings are survivingPhones
of the batch. -/
theorem addClient_list_spec (conn : Conn) (f l : String) (email : Option String)
    (ps : List String) (he : emailOkOpt email = true) :
    ∃ pend' : List PhoneRow,
      (∀ r ∈ pend', r.client_id = conn.next_client_id) ∧
      pend'.map (fun r => r.phone) = survivingPhones ps ∧
      (add_client conn f l email (.list ps)).2 = .ok conn.next_client_id ∧
      (add_client conn f l email (.list ps)).1.committed =
        ⟨conn.current.clients ++ [⟨conn.next_client_id, f, l, email⟩],
         conn.current.phones ++ pend'⟩ ∧
      (add_client conn f l email (.list ps)).1.current =
        (add_client conn f l email (.list ps)).1.committed := by
  have hadd : add_client conn f l email (.list ps) =
      ((insertPhonesLoop
          (Conn.commit { conn with
            current := { conn.current with
              clients := conn.current.clients ++
                [⟨conn.next_client_id, f, l, email⟩] }
            next_client_id := conn.next_client_id + 1 })
          conn.next_client_id ps).commit,
        .ok conn.next_client_id) := by
    simp [add_client, he]
  obtain ⟨pend', h1, h2, h3, h4⟩ :=
    insertPhonesLoop_spec conn.next_client_id ps
      (Conn.commit { conn with
        current := { conn.current with
          clients := conn.current.clients ++
            [⟨conn.next_client_id, f, l, email⟩] }
        next_client_id := conn.next_client_id + 1 }) []
      (by simp [Conn.commit]) (by intro r hr; simp at hr)
  refine ⟨pend', h3, ?_, ?_, ?_, ?_⟩
  · rw [h4]; rfl
  · rw [hadd]
  · rw [hadd]
    show (insertPhonesLoop _ conn.next_client_id ps).current = _
    rw [h2]
    rfl
  · rw [hadd]
    rfl

/-! ## Claim theorems -/

/-- C1 counterexample: in AddClient("A","B", phones=["555-1234", "bad
phone!!"]) the valid phone "555-1234" does NOT persist.  The rollback
taken when "bad phone!!" violates the constraint discards the whole open
transaction, including the earlier valid insert, so the committed state
holds the client row and no phone at all — refuting the claim that only
the single failing insert is rolled back. -/
theorem addClient_phone_isolation_cex :
    phoneOk "555-1234" = true ∧
    (add_client emptyConn "A" "B" none
      (PhoneArg.list ["555-1234", "bad phone!!"])).1.committed.clients =
      [⟨1, "A", "B", none⟩] ∧
    (add_client emptyConn "A" "B" none
      (PhoneArg.list ["555-1234", "bad phone!!"])).1.committed.phones = [] :=
  ⟨by decide, rfl, rfl⟩

/-- C1 amended: a phone violating the format constraint is skipped without
aborting the call, but its rollback also discards every valid phone
inserted earlier in the same call (they are uncommitted); the client row
persists, and the phones that persist are exactly those computed by
survivingPhones: the valid entries after the last invalid one. -/
theorem addClient_phone_batch_rollback (conn : Conn) (f l : String)
    (email : Option String) (ps : List String)
    (he : emailOkOpt email = true)
    (hfresh : ∀ p ∈ conn.current.phones, p.client_id ≠ conn.next_client_id) :
    (add_client conn f l email (.list ps)).2 = .ok conn.next_client_id ∧
    (⟨conn.next_client_id, f, l, email⟩ : ClientRow) ∈
      (add_client conn f l email (.list ps)).1.committed.clients ∧
    clientPhones (add_client conn f l email (.list ps)).1.committed
      conn.next_client_id = survivingPhones ps := by
  obtain ⟨pend', h1, h2, h3, h4, _⟩ := addClient_list_spec conn f l email ps he
  refine ⟨h3, ?_, ?_⟩
  · rw [h4]; simp
  · rw [h4]
    unfold clientPhones
    simp only [List.filter_append, List.map_append]
    have hl : conn.current.phones.filter
        (fun p => p.client_id == conn.next_client_id) = [] := by
      rw [List.filter_eq_nil_iff]
      intro p hp
      simp [hfresh p hp]
    have hr : pend'.filter (fun p => p.client_id == conn.next_client_id) = pend' := by
      rw [List.filter_eq_self]
      intro p hp
      simp [h1 p hp]
    rw [hl, hr, h2]
    rfl

/-- C1 witness: instantiating the amended theorem on the batch
["555-1234", "bad phone!!", "1234567890"] — only the valid phone after
the failing one survives. -/
theorem addClient_phone_batch_rollback_witness :
    clientPhones (add_client emptyConn "A" "B" none
      (PhoneArg.list ["555-1234", "bad phone!!", "1234567890"])).1.committed 1 =
      survivingPhones ["555-1234", "bad phone!!", "1234567890"] ∧
    survivingPhones ["555-1234", "bad phone!!", "1234567890"] = ["1234567890"] :=
  ⟨(addClient_phone_batch_rollback emptyConn "A" "B" none
      ["555-1234", "bad phone!!", "1234567890"] (by decide)
      (by intro p hp; simp [emptyConn] at hp)).2.2,
   by decide⟩

/-- C5 counterexample: the code commits the client row before the phone
loop, not in one commit at the end of phone processing.  Under the
single-commit semantics the spec describes (add_client_single_commit, a
definition following the spec text), a failing phone would roll the
uncommitted client row back; the code's add_client instead leaves the
client row durable.  The two semantics produce different committed states
on the same call, and the code's state still holds the client. -/
theorem addClient_commit_timing_cex :
    (add_client emptyConn "A" "B" none
      (PhoneArg.list ["bad phone!!"])).1.committed.clients =
      [⟨1, "A", "B", none⟩] ∧
    (add_client_single_commit emptyConn "A" "B" none
      (PhoneArg.list ["bad phone!!"])).1.committed.clients = [] :=
  ⟨rfl, rfl⟩

/-- C5 amended: add_client is two-phase — the client-row insert is
committed on its own before the phone loop, and the successful phone
inserts are made durable by a second commit at the end of phone
processing.  Hence for every batch, even one whose inserts all fail, the
committed state after the call contains the new client row, and the call
ends with no transaction open (current equals committed). -/
theorem addClient_client_committed_before_phones (conn : Conn) (f l : String)
    (email : Option String) (ps : List String) (he : emailOkOpt email = true) :
    (add_client conn f l email (.list ps)).1.committed.clients =
      conn.current.clients ++ [⟨conn.next_client_id, f, l, email⟩] ∧
    (add_client conn f l email (.list ps)).1.current =
      (add_client conn f l email (.list ps)).1.committed := by
  obtain ⟨pend', _, _, _, h4, h5⟩ := addClient_list_spec conn f l email ps he
  exact ⟨by rw [h4], h5⟩

/-- C5 witness: instantiating the amended theorem on a batch whose only
phone fails — the client row is committed nevertheless. -/
theorem addClient_client_committed_before_phones_witness :
    (add_client emptyConn "A" "B" none
      (PhoneArg.list ["bad phone!!"])).1.committed.clients = [⟨1, "A", "B", none⟩] := by
  have h := addClient_client_committed_before_phones emptyConn "A" "B" none
    ["bad phone!!"] (by decide)
  rw [h.1]
  rfl

/-- C3: when the email violates its format constraint, add_client catches
the CheckViolation (signalling it as the emailValidationError outcome
rather than an unhandled exception), rolls the transaction back, commits
nothing, and returns no identifier: the committed state is untouched and
the current state is reset to it. -/
theorem addClient_invalid_email_rejected (conn : Conn) (f l : String)
    (email : Option String) (pl : PhoneArg)
    (he : emailOkOpt email = false) :
    (add_client conn f l email pl).2 = .emailValidationError ∧
    (add_client conn f l email pl).1.committed = conn.committed ∧
    (add_client conn f l email pl).1.current = conn.committed := by
  simp [add_client, he, Conn.rollback]

/-- C3 witness: the invalid email "not-an-email" creates no client row. -/
theorem addClient_invalid_email_rejected_witness :
    emailOkOpt (some "not-an-email") = false ∧
    (add_client emptyConn "Ivan" "Ivanov" (some "not-an-email")
      PhoneArg.noneArg).2 = .emailValidationError ∧
    (add_client emptyConn "Ivan" "Ivanov" (some "not-an-email")
      PhoneArg.noneArg).1.committed = emptyConn.committed :=
  ⟨by decide,
   (addClient_invalid_email_rejected emptyConn "Ivan" "Ivanov"
     (some "not-an-email") PhoneArg.noneArg (by decide)).1,
   (addClient_invalid_email_rejected emptyConn "Ivan" "Ivanov"
     (some "not-an-email") PhoneArg.noneArg (by decide)).2.1⟩

/-- C4: a field name outside fields_to_search raises KeyError, which
find_client catches, prints the invalid-field message and returns None —
embedded as the none result, carrying no rows; the input is rejected, not
searched. -/
theorem findClient_unknown_field_rejected (db : DB) (fn fv : String)
    (h : lookupField (pyLower fn) = none) :
    find_client db fn fv = none := by
  simp [find_client, h]

/-- C4 witness: the spec's own example, FindClient("unknown_field", "x"). -/
theorem findClient_unknown_field_rejected_witness :
    lookupField (pyLower "unknown_field") = none ∧
    find_client dbIvan "unknown_field" "x" = none :=
  ⟨by decide,
   findClient_unknown_field_rejected dbIvan "unknown_field" "x" (by decide)⟩

/-- C10 counterexample: the claim quantifies over every AddClient call
with a non-None, non-iterable phone_list, but when the email also fails
its constraint the call signals the email validation error and creates no
client row — so "no error is signaled, and the client row is still
created" does not hold of every such call. -/
theorem addClient_notIterable_cex :
    (add_client emptyConn "A" "B" (some "not-an-email")
      PhoneArg.notIterable).2 = AddClientResult.emailValidationError ∧
    (add_client emptyConn "A" "B" (some "not-an-email")
      PhoneArg.notIterable).1.committed.clients = [] :=
  ⟨rfl, rfl⟩

/-- C10 amended: for every AddClient call whose email passes the
constraint and whose phone_list is neither None nor an iterable, the
isinstance guard silently skips phone processing: the call behaves
exactly like a call with phone_list=None, inserts no phone row, signals
no error, and creates the client row, returning its new identifier. -/
theorem addClient_notIterable_skips_phones (conn : Conn) (f l : String)
    (email : Option String) (he : emailOkOpt email = true) :
    add_client conn f l email .notIterable = add_client conn f l email .noneArg ∧
    (add_client conn f l email .notIterable).2 = .ok conn.next_client_id ∧
    (add_client conn f l email .notIterable).1.committed.phones =
      conn.current.phones ∧
    (add_client conn f l email .notIterable).1.committed.clients =
      conn.current.clients ++ [⟨conn.next_client_id, f, l, email⟩] := by
  simp [add_client, he, Conn.commit]

/-- C10 witness: instantiating the amended theorem on a connection with
one committed client and a valid (null) email. -/
theorem addClient_notIterable_skips_phones_witness :
    (add_client connA "E" "F" none PhoneArg.notIterable).2 = .ok 2 ∧
    (add_client connA "E" "F" none PhoneArg.notIterable).1.committed.clients =
      [⟨1, "A", "B", none⟩, ⟨2, "E", "F", none⟩] := by
  have h := addClient_notIterable_skips_phones connA "E" "F" none (by decide)
  exact ⟨h.2.1, by rw [h.2.2.2]; rfl⟩

/-- C8 counterexample: update_client runs the UPDATE with no try/except,
and the email CHECK constraint is evaluated on every updated row; for an
existing id and an email violating the constraint the call raises an
uncaught CheckViolation instead of replacing the fields. -/
theorem updateClient_existing_replaces_cex :
    update_client connA 1 "C" "D" (some "bad-email") =
      Except.error PgError.checkViolation := rfl

/-- C8 amended: UpdateClient on a non-existent id changes zero rows and
raises no error (the connection is returned unchanged); on any id, when
the new email is null or satisfies the format constraint, the update
succeeds and fully replaces the three mutable fields of the matching row,
leaving every other row and all phones untouched. -/
theorem updateClient_amended (conn : Conn) (cid : Nat) (nf nl : String)
    (ne : Option String) (hq : conn.current = conn.committed) :
    ((∀ c ∈ conn.current.clients, c.client_id ≠ cid) →
      update_client conn cid nf nl ne = .ok conn) ∧
    (emailOkOpt ne = true →
      ∃ conn', update_client conn cid nf nl ne = .ok conn' ∧
        conn'.current = conn'.committed ∧
        conn'.committed.phones = conn.current.phones ∧
        conn'.committed.clients = conn.current.clients.map (fun c =>
          if c.client_id = cid then ⟨cid, nf, nl, ne⟩ else c)) := by
  constructor
  · intro hnone
    have hany : conn.current.clients.any (fun c => c.client_id == cid) = false := by
      rw [List.any_eq_false]
      intro c hc
      simp [hnone c hc]
    have hmap : conn.current.clients.map (fun c =>
        if c.client_id == cid then
          { c with first_name := nf, last_name := nl, email := ne }
        else c) = conn.current.clients :=
      (List.map_congr_left (fun c hc => by simp [hnone c hc])).trans
        (List.map_id _)
    simp only [update_client, hany, Bool.false_and, Bool.false_eq_true,
      if_false, hmap]
    congr 1
    obtain ⟨com, cur, a, b⟩ := conn
    simp only at hq
    simp [Conn.commit, hq]
  · intro he
    refine ⟨Conn.commit { conn with
        current := { conn.current with
          clients := conn.current.clients.map (fun c =>
            if c.client_id == cid then
              { c with first_name := nf, last_name := nl, email := ne }
            else c) } }, ?_, rfl, rfl, ?_⟩
    · simp [update_client, he]
    · show conn.current.clients.map _ = _
      refine List.map_congr_left (fun c hc => ?_)
      by_cases h : c.client_id = cid
      · simp [h]
      · simp [h]

/-- C8 witness: updating the non-existent id 5 on a connection holding
only client 1 returns the connection unchanged with no error. -/
theorem updateClient_amended_witness :
    update_client connA 5 "C" "D" (some "x@y.z") = .ok connA :=
  (updateClient_amended connA 5 "C" "D" (some "x@y.z") rfl).1 (by decide)

/-- C2 counterexample: the recognized search keys are the Russian words
of fields_to_search, not the English names the claim lists: searching by
"name" signals the invalid-field outcome even though a client with that
first name exists, while the Russian key for it succeeds. -/
theorem findClient_fieldnames_cex :
    find_client dbIvan "name" "Ivan" = none ∧
    find_client dbIvan "имя" "Ivan" = some [⟨1, "Ivan", "Ivanov", none⟩] :=
  ⟨rfl, rfl⟩

/-- The keys on which the fields_to_search lookup succeeds are exactly
the four Russian words of the class-level dictionary. -/
theorem lookupField_isSome_iff (k : String) :
    (lookupField k).isSome = true ↔
      k = "имя" ∨ k = "фамилия" ∨ k = "email" ∨ k = "телефон" := by
  constructor
  · intro h
    by_contra hno
    push_neg at hno
    have hnone : lookupField k = none := by
      unfold lookupField
      rw [Option.map_eq_none']
      rw [List.find?_eq_none]
      intro x hx
      simp only [fields_to_search, List.mem_cons, List.not_mem_nil,
        or_false] at hx
      rcases hx with h1 | h1 | h1 | h1 <;> subst h1 <;>
        simp only [beq_iff_eq] <;>
        intro hh <;>
        first
          | exact hno.1 hh.symm
          | exact hno.2.1 hh.symm
          | exact hno.2.2.1 hh.symm
          | exact hno.2.2.2 hh.symm
    rw [hnone] at h
    simp at h
  · rintro (h | h | h | h) <;> subst h <;> rfl

/-- C2 amended: FindClient accepts exactly the four field names "имя",
"фамилия", "email", "телефон", matched case-insensitively (the input is
lowercased before lookup), and maps them to the storage columns
first_name, last_name, email and phone respectively. -/
theorem findClient_fieldnames_amended (db : DB) (s v : String) :
    ((find_client db s v).isSome = true ↔
      pyLower s = "имя" ∨ pyLower s = "фамилия" ∨
      pyLower s = "email" ∨ pyLower s = "телефон") ∧
    lookupField "имя" = some "first_name" ∧
    lookupField "фамилия" = some "last_name" ∧
    lookupField "email" = some "email" ∧
    lookupField "телефон" = some "phone" := by
  refine ⟨?_, rfl, rfl, rfl, rfl⟩
  have hfind : (find_client db s v).isSome = (lookupField (pyLower s)).isSome := by
    cases h : lookupField (pyLower s) <;> simp [find_client, h]
  rw [hfind]
  exact lookupField_isSome_iff (pyLower s)

/-- C2 witness: case-insensitive matching of the Russian key for first
name — the capitalized "Имя" is accepted. -/
theorem findClient_fieldnames_amended_witness :
    (find_client dbIvan "Имя" "Ivan").isSome = true :=
  (findClient_fieldnames_amended dbIvan "Имя" "Ivan").1.mpr (by decide)

/-- C7: del_client deletes every phone row of the client and then the
client row, committing once: afterwards neither the client nor any of its
phones remain (in the committed or the current state — they coincide),
every other client and phone survives, and referential integrity is
preserved. -/
theorem delClient_cascade (conn : Conn) (cid : Nat) :
    (∀ c ∈ (del_client conn cid).committed.clients, c.client_id ≠ cid) ∧
    (∀ p ∈ (del_client conn cid).committed.phones, p.client_id ≠ cid) ∧
    (del_client conn cid).current = (del_client conn cid).committed ∧
    (∀ c ∈ conn.current.clients, c.client_id ≠ cid →
      c ∈ (del_client conn cid).committed.clients) ∧
    (∀ p ∈ conn.current.phones, p.client_id ≠ cid →
      p ∈ (del_client conn cid).committed.phones) ∧
    (refIntegrity conn.current → refIntegrity (del_client conn cid).committed) := by
  refine ⟨?_, ?_, rfl, ?_, ?_, ?_⟩
  · intro c hc
    simp [del_client, Conn.commit, List.mem_filter] at hc
    exact hc.2
  · intro p hp
    simp [del_client, Conn.commit, List.mem_filter] at hp
    exact hp.2
  · intro c hc hne
    simp [del_client, Conn.commit, List.mem_filter]
    exact ⟨hc, hne⟩
  · intro p hp hne
    simp [del_client, Conn.commit, List.mem_filter]
    exact ⟨hp, hne⟩
  · intro hri p hp
    simp [del_client, Conn.commit, List.mem_filter] at hp ⊢
    obtain ⟨hpmem, hpcid⟩ := hp
    obtain ⟨c, hcmem, hceq⟩ := hri p hpmem
    exact ⟨c, ⟨hcmem, by rw [hceq]; exact hpcid⟩, hceq⟩

/-- C7 witness: deleting client 1 of connDel keeps client 2 and its
phone, closes the transaction, and the state satisfies the cascade
conclusions at this concrete input. -/
theorem delClient_cascade_witness :
    (del_client connDel 1).current = (del_client connDel 1).committed ∧
    (⟨2, "C", "D", none⟩ : ClientRow) ∈ (del_client connDel 1).committed.clients ∧
    (⟨2, 2, "456"⟩ : PhoneRow) ∈ (del_client connDel 1).committed.phones :=
  ⟨(delClient_cascade connDel 1).2.2.1,
   (delClient_cascade connDel 1).2.2.2.1 ⟨2, "C", "D", none⟩ (by decide) (by decide),
   (delClient_cascade connDel 1).2.2.2.2.1 ⟨2, 2, "456"⟩ (by decide) (by decide)⟩

/-! ## Lemmas about the LEFT JOIN embedding, for the two query claims -/

/-- Every row a client contributes to the join carries that client on its
left side. -/
theorem joinRowsFor_fst (db : DB) (c : ClientRow) :
    ∀ r ∈ joinRowsFor db c, r.1 = c := by
  intro r hr
  unfold joinRowsFor at hr
  cases h : db.phones.filter (fun p => p.client_id == c.client_id) with
  | nil =>
      rw [h] at hr
      simp only [List.mem_singleton] at hr
      rw [hr]
  | cons q qs =>
      rw [h] at hr
      simp only [List.mem_map] at hr
      obtain ⟨a, _, ha⟩ := hr
      rw [← ha]

/-- A LEFT JOIN yields at least one row per client. -/
theorem joinRowsFor_ne_nil (db : DB) (c : ClientRow) : joinRowsFor db c ≠ [] := by
  unfold joinRowsFor
  cases h : db.phones.filter (fun p => p.client_id == c.client_id) <;> simp

/-- Characterization of the rows a client contributes to the join: the
NULL-phone row when the client has no phones, otherwise one row per phone
row of the client. -/
theorem mem_joinRowsFor (db : DB) (c : ClientRow) (r : ClientRow × Option PhoneRow) :
    r ∈ joinRowsFor db c ↔
      r.1 = c ∧
      ((r.2 = none ∧ ∀ p ∈ db.phones, p.client_id ≠ c.client_id) ∨
        (∃ p, r.2 = some p ∧ p ∈ db.phones ∧ p.client_id = c.client_id)) := by
  unfold joinRowsFor
  cases h : db.phones.filter (fun p => p.client_id == c.client_id) with
  | nil =>
      rw [List.filter_eq_nil_iff] at h
      simp only [List.mem_singleton]
      constructor
      · intro hr
        subst hr
        refine ⟨rfl, Or.inl ⟨rfl, fun p hp => ?_⟩⟩
        have := h p hp
        simpa using this
      · rintro ⟨h1, h2 | ⟨p, hp, hmem, hcid⟩⟩
        · obtain ⟨r1, r2⟩ := r
          simp only at h1 h2
          rw [h1, h2.1]
        · exfalso
          have := h p hmem
          simp [hcid] at this
  | cons q qs =>
      constructor
      · intro hr
        simp only [List.mem_map] at hr
        obtain ⟨a, ha, hae⟩ := hr
        have hamem : a ∈ db.phones.filter (fun p => p.client_id == c.client_id) := by
          rw [h]; exact ha
        rw [List.mem_filter] at hamem
        refine ⟨by rw [← hae], Or.inr ⟨a, by rw [← hae], hamem.1, ?_⟩⟩
        simpa using hamem.2
      · rintro ⟨h1, ⟨h2, hall⟩ | ⟨p, hp2, hmem, hcid⟩⟩
        · exfalso
          have hq : q ∈ db.phones.filter (fun p => p.client_id == c.client_id) := by
            rw [h]; exact List.mem_cons_self q qs
          rw [List.mem_filter] at hq
          exact hall q hq.1 (by simpa using hq.2)
        · have hpin : p ∈ db.phones.filter (fun w => w.client_id == c.client_id) := by
            rw [List.mem_filter]
            exact ⟨hmem, by simp [hcid]⟩
          rw [h] at hpin
          simp only [List.mem_map]
          refine ⟨p, hpin, ?_⟩
          obtain ⟨r1, r2⟩ := r
          simp only at h1 hp2
          rw [h1, hp2]

/-- The left sides of a client's join rows are that client, repeated. -/
theorem map_fst_joinRowsFor (db : DB) (c : ClientRow) :
    (joinRowsFor db c).map (fun r => r.1) =
      List.replicate (joinRowsFor db c).length c := by
  rw [List.eq_replicate_iff]
  refine ⟨by simp, ?_⟩
  intro b hb
  obtain ⟨r, hr, hrb⟩ := List.mem_map.mp hb
  rw [← hrb]
  exact joinRowsFor_fst db c r hr

/-- Removing duplicates from a nonempty replicate block followed by a
list not containing the repeated element keeps one copy in front. -/
theorem dedup_replicate_append {α : Type} [DecidableEq α] (c : α) (R : List α)
    (hc : c ∉ R) :
    ∀ (k : Nat), k ≠ 0 → (List.replicate k c ++ R).dedup = c :: R.dedup := by
  intro k
  induction k with
  | zero => intro hk; exact absurd rfl hk
  | succ k ih =>
      intro _
      cases eq_or_ne k 0 with
      | inl h0 =>
          subst h0
          simp only [List.replicate_succ, List.replicate_zero, List.nil_append,
            List.singleton_append]
          exact List.dedup_cons_of_not_mem hc
      | inr hne =>
          rw [List.replicate_succ, List.cons_append, List.dedup_cons_of_mem
            (List.mem_append.mpr (Or.inl (List.mem_replicate.mpr ⟨hne, rfl⟩)))]
          exact ih hne

/-- The distinct left sides of the join rows of a duplicate-free client
list are exactly that client list: the GROUP BY of print_all_clients has
one group per client. -/
theorem dedup_map_fst_flatMap (db : DB) :
    ∀ (l : List ClientRow), l.Nodup →
      ((l.flatMap (joinRowsFor db)).map (fun r => r.1)).dedup = l := by
  intro l
  induction l with
  | nil => intro _; rfl
  | cons c t ih =>
      intro hnd
      rw [List.nodup_cons] at hnd
      rw [List.flatMap_cons, List.map_append, map_fst_joinRowsFor]
      have hcnot : c ∉ (t.flatMap (joinRowsFor db)).map (fun r => r.1) := by
        intro hmem
        obtain ⟨r, hr, hrc⟩ := List.mem_map.mp hmem
        obtain ⟨c2, hc2, hrc2⟩ := List.mem_flatMap.mp hr
        have hf := joinRowsFor_fst db c2 r hrc2
        have hcc : c2 = c := hf.symm.trans hrc
        exact hnd.1 (hcc ▸ hc2)
      rw [dedup_replicate_append c _ hcnot _
        (fun h => joinRowsFor_ne_nil db c (List.length_eq_zero.mp h))]
      rw [ih hnd.2]

/-- In the join over a duplicate-free client list, the rows whose left
side is a given listed client are exactly that client's own join rows. -/
theorem filter_fst_flatMap (db : DB) :
    ∀ (l : List ClientRow), l.Nodup → ∀ c ∈ l,
      (l.flatMap (joinRowsFor db)).filter (fun r => r.1 == c) =
        joinRowsFor db c := by
  intro l
  induction l with
  | nil => intro _ c hc; simp at hc
  | cons a t ih =>
      intro hnd c hc
      rw [List.nodup_cons] at hnd
      rw [List.flatMap_cons, List.filter_append]
      rcases List.mem_cons.mp hc with h | h
      · subst h
        have h1 : (joinRowsFor db c).filter (fun r => r.1 == c) =
            joinRowsFor db c := by
          rw [List.filter_eq_self]
          intro r hr
          simp [joinRowsFor_fst db c r hr]
        have h2 : (t.flatMap (joinRowsFor db)).filter (fun r => r.1 == c) = [] := by
          rw [List.filter_eq_nil_iff]
          intro r hr
          obtain ⟨c2, hc2, hrc2⟩ := List.mem_flatMap.mp hr
          have hf := joinRowsFor_fst db c2 r hrc2
          simp only [hf, beq_iff_eq]
          intro he
          exact hnd.1 (he ▸ hc2)
        rw [h1, h2, List.append_nil]
      · have ha : (joinRowsFor db a).filter (fun r => r.1 == c) = [] := by
          rw [List.filter_eq_nil_iff]
          intro r hr
          have hf := joinRowsFor_fst db a r hr
          simp only [hf, beq_iff_eq]
          intro he
          subst he
          exact hnd.1 h
        rw [ha, List.nil_append, ih hnd.2 c h]

/-- The phones aggregated over a client's join rows are exactly the
client's stored phone strings. -/
theorem agg_joinRowsFor (db : DB) (c : ClientRow) :
    ((joinRowsFor db c).filterMap (fun r => r.2)).map (fun p => p.phone) =
      clientPhones db c.client_id := by
  unfold joinRowsFor clientPhones
  cases h : db.phones.filter (fun p => p.client_id == c.client_id) with
  | nil => rfl
  | cons q qs =>
      rw [List.filterMap_map]
      rw [show ((fun (r : ClientRow × Option PhoneRow) => r.2) ∘
        fun p => (c, some p)) = some from rfl]
      rw [List.filterMap_some]

/-- C6: print_all_clients produces exactly one row per client — the
grouped LEFT JOIN collapses to a map over the client table — each row
carrying the client id, first name, last name, email and the comma-joined
aggregate of that client's phones; the aggregate is NULL (none) exactly
for a phoneless client, never a dropped row and never one row per phone. -/
theorem listAllClients_one_row_per_client (db : DB)
    (hnd : (db.clients.map (fun c => c.client_id)).Nodup) :
    print_all_clients db = db.clients.map (fun c =>
      (c.client_id, c.first_name, c.last_name, c.email,
        string_agg (clientPhones db c.client_id))) ∧
    (print_all_clients db).length = db.clients.length ∧
    (∀ ps : List String, string_agg ps = none ↔ ps = []) := by
  have hcnd : db.clients.Nodup := List.Nodup.of_map _ hnd
  have hmain : print_all_clients db = db.clients.map (fun c =>
      (c.client_id, c.first_name, c.last_name, c.email,
        string_agg (clientPhones db c.client_id))) := by
    show (((db.clients.flatMap (joinRowsFor db)).map (fun r => r.1)).dedup).map _ = _
    rw [dedup_map_fst_flatMap db db.clients hcnd]
    refine List.map_congr_left (fun c hc => ?_)
    rw [show leftJoinRows db = db.clients.flatMap (joinRowsFor db) from rfl]
    rw [filter_fst_flatMap db db.clients hcnd c hc]
    rw [agg_joinRowsFor]
  refine ⟨hmain, by rw [hmain, List.length_map], ?_⟩
  intro ps
  cases ps <;> simp [string_agg]

/-- C6 witness: the concrete two-client database (client 1 with two
phones, client 2 with one) and the phoneless single-client database,
through the theorem. -/
theorem listAllClients_one_row_per_client_witness :
    print_all_clients dbTwo =
      [(1, "V", "P", none, some "555-1234, 555-1234"),
       (2, "V", "S", none, some "111")] ∧
    print_all_clients dbIvan = [(1, "Ivan", "Ivanov", none, none)] :=
  ⟨by rw [(listAllClients_one_row_per_client dbTwo (by decide)).1]; rfl,
   by rw [(listAllClients_one_row_per_client dbIvan (by decide)).1]; rfl⟩

/-- The only column names fields_to_search can produce. -/
theorem lookupField_col (k col : String) (h : lookupField k = some col) :
    col = "first_name" ∨ col = "last_name" ∨ col = "email" ∨ col = "phone" := by
  unfold lookupField at h
  rw [Option.map_eq_some'] at h
  obtain ⟨kv, hfind, hcol⟩ := h
  have hmem := List.mem_of_find?_eq_some hfind
  simp only [fields_to_search, List.mem_cons, List.not_mem_nil, or_false] at hmem
  rcases hmem with h1 | h1 | h1 | h1 <;> subst h1 <;> subst hcol <;> simp

/-- colValue on the first_name column. -/
theorem colValue_first_name (c : ClientRow) (p : Option PhoneRow) :
    colValue "first_name" c p = some c.first_name := rfl

/-- colValue on the last_name column. -/
theorem colValue_last_name (c : ClientRow) (p : Option PhoneRow) :
    colValue "last_name" c p = some c.last_name := rfl

/-- colValue on the email column. -/
theorem colValue_email (c : ClientRow) (p : Option PhoneRow) :
    colValue "email" c p = c.email := rfl

/-- colValue on the phone column of the joined row. -/
theorem colValue_phone (c : ClientRow) (p : Option PhoneRow) :
    colValue "phone" c p = p.map (fun r => r.phone) := rfl

/-- fieldMatches specialised to the first_name column. -/
theorem fieldMatches_first_name (db : DB) (v : String) (c : ClientRow) :
    fieldMatches db "first_name" v c ↔ c.first_name = v := by
  unfold fieldMatches
  constructor
  · rintro (⟨_, h⟩ | ⟨h, _⟩ | ⟨h, _⟩ | ⟨h, _⟩)
    · exact h
    · exact absurd h (by decide)
    · exact absurd h (by decide)
    · exact absurd h (by decide)
  · intro h
    exact Or.inl ⟨rfl, h⟩

/-- fieldMatches specialised to the last_name column. -/
theorem fieldMatches_last_name (db : DB) (v : String) (c : ClientRow) :
    fieldMatches db "last_name" v c ↔ c.last_name = v := by
  unfold fieldMatches
  constructor
  · rintro (⟨h, _⟩ | ⟨_, h⟩ | ⟨h, _⟩ | ⟨h, _⟩)
    · exact absurd h (by decide)
    · exact h
    · exact absurd h (by decide)
    · exact absurd h (by decide)
  · intro h
    exact Or.inr (Or.inl ⟨rfl, h⟩)

/-- fieldMatches specialised to the email column. -/
theorem fieldMatches_email (db : DB) (v : String) (c : ClientRow) :
    fieldMatches db "email" v c ↔ c.email = some v := by
  unfold fieldMatches
  constructor
  · rintro (⟨h, _⟩ | ⟨h, _⟩ | ⟨_, h⟩ | ⟨h, _⟩)
    · exact absurd h (by decide)
    · exact absurd h (by decide)
    · exact h
    · exact absurd h (by decide)
  · intro h
    exact Or.inr (Or.inr (Or.inl ⟨rfl, h⟩))

/-- fieldMatches specialised to the phone column. -/
theorem fieldMatches_phone (db : DB) (v : String) (c : ClientRow) :
    fieldMatches db "phone" v c ↔
      ∃ p ∈ db.phones, p.client_id = c.client_id ∧ p.phone = v := by
  unfold fieldMatches
  constructor
  · rintro (⟨h, _⟩ | ⟨h, _⟩ | ⟨h, _⟩ | ⟨_, h⟩)
    · exact absurd h (by decide)
    · exact absurd h (by decide)
    · exact absurd h (by decide)
    · exact h
  · intro h
    exact Or.inr (Or.inr (Or.inr ⟨rfl, h⟩))

/-- Every listed client contributes at least one join row, whose left
side is the client. -/
theorem exists_joinRow (db : DB) (c : ClientRow) (hc : c ∈ db.clients) :
    ∃ r ∈ leftJoinRows db, r.1 = c := by
  obtain ⟨r, hr⟩ := List.exists_mem_of_ne_nil _ (joinRowsFor_ne_nil db c)
  exact ⟨r, List.mem_flatMap.mpr ⟨c, hc, hr⟩, joinRowsFor_fst db c r hr⟩

/-- A join row's left side is a listed client, and the row belongs to
that client's join rows. -/
theorem mem_leftJoinRows (db : DB) (r : ClientRow × Option PhoneRow)
    (hr : r ∈ leftJoinRows db) : r.1 ∈ db.clients ∧ r ∈ joinRowsFor db r.1 := by
  obtain ⟨c, hc, hrc⟩ := List.mem_flatMap.mp hr
  have hf := joinRowsFor_fst db c r hrc
  rw [← hf] at hc hrc
  exact ⟨hc, hrc⟩

/-- C9: for a recognized field name, find_client matches by exact
equality against the mapped column — joining client to client_phone, so a
client matches on the phone column precisely when one of its phone rows
carries the value — and returns the matching client rows with SELECT
DISTINCT deduplication: membership in the result is exactly the match
predicate, and (for a well-formed client table with distinct ids) no
client id occurs twice in the result. -/
theorem findClient_match_dedup (db : DB) (fn fv col : String)
    (res : List ClientRow)
    (hcol : lookupField (pyLower fn) = some col)
    (hres : find_client db fn fv = some res)
    (hnd : (db.clients.map (fun c => c.client_id)).Nodup) :
    (∀ c, c ∈ res ↔ c ∈ db.clients ∧ fieldMatches db col fv c) ∧
    (res.map (fun c => c.client_id)).Nodup := by
  have hres2 : res = (((leftJoinRows db).filter
      (fun r => colValue col r.1 r.2 == some fv)).map (fun r => r.1)).dedup := by
    unfold find_client at hres
    rw [hcol] at hres
    exact (Option.some.inj hres).symm
  have hmem : ∀ c : ClientRow, c ∈ res ↔
      ∃ r ∈ leftJoinRows db,
        (colValue col r.1 r.2 == some fv) = true ∧ r.1 = c := by
    intro c
    rw [hres2, List.mem_dedup, List.mem_map]
    constructor
    · rintro ⟨r, hr, hrc⟩
      rw [List.mem_filter] at hr
      exact ⟨r, hr.1, hr.2, hrc⟩
    · rintro ⟨r, hr, hpred, hrc⟩
      exact ⟨r, List.mem_filter.mpr ⟨hr, hpred⟩, hrc⟩
  have hiff : ∀ c, c ∈ res ↔ c ∈ db.clients ∧ fieldMatches db col fv c := by
    intro c
    rw [hmem]
    rcases lookupField_col _ _ hcol with h | h | h | h <;> subst h
    · rw [fieldMatches_first_name]
      constructor
      · rintro ⟨r, hr, hpred, hrc⟩
        rw [colValue_first_name, beq_iff_eq] at hpred
        have hm := (mem_leftJoinRows db r hr).1
        rw [hrc] at hm
        rw [hrc] at hpred
        exact ⟨hm, Option.some.inj hpred⟩
      · rintro ⟨hc, hv⟩
        obtain ⟨r, hr, hrc⟩ := exists_joinRow db c hc
        refine ⟨r, hr, ?_, hrc⟩
        rw [colValue_first_name, beq_iff_eq, hrc, hv]
    · rw [fieldMatches_last_name]
      constructor
      · rintro ⟨r, hr, hpred, hrc⟩
        rw [colValue_last_name, beq_iff_eq] at hpred
        have hm := (mem_leftJoinRows db r hr).1
        rw [hrc] at hm
        rw [hrc] at hpred
        exact ⟨hm, Option.some.inj hpred⟩
      · rintro ⟨hc, hv⟩
        obtain ⟨r, hr, hrc⟩ := exists_joinRow db c hc
        refine ⟨r, hr, ?_, hrc⟩
        rw [colValue_last_name, beq_iff_eq, hrc, hv]
    · rw [fieldMatches_email]
      constructor
      · rintro ⟨r, hr, hpred, hrc⟩
        rw [colValue_email, beq_iff_eq] at hpred
        have hm := (mem_leftJoinRows db r hr).1
        rw [hrc] at hm
        rw [hrc] at hpred
        exact ⟨hm, hpred⟩
      · rintro ⟨hc, hv⟩
        obtain ⟨r, hr, hrc⟩ := exists_joinRow db c hc
        refine ⟨r, hr, ?_, hrc⟩
        rw [colValue_email, beq_iff_eq, hrc, hv]
    · rw [fieldMatches_phone]
      constructor
      · rintro ⟨r, hr, hpred, hrc⟩
        rw [colValue_phone, beq_iff_eq, Option.map_eq_some'] at hpred
        obtain ⟨p, hp2, hpv⟩ := hpred
        obtain ⟨hm, hjoin⟩ := mem_leftJoinRows db r hr
        rw [mem_joinRowsFor] at hjoin
        rcases hjoin.2 with ⟨hnone, _⟩ | ⟨q, hq2, hqmem, hqcid⟩
        · rw [hnone] at hp2
          exact absurd hp2 (by simp)
        · rw [hq2] at hp2
          have hpq : q = p := Option.some.inj hp2
          subst hpq
          rw [hrc] at hm
          rw [hrc] at hqcid
          exact ⟨hm, q, hqmem, hqcid, hpv⟩
      · rintro ⟨hc, p, hpmem, hpcid, hpv⟩
        refine ⟨(c, some p), ?_, ?_, rfl⟩
        · apply List.mem_flatMap.mpr
          refine ⟨c, hc, ?_⟩
          rw [mem_joinRowsFor]
          exact ⟨rfl, Or.inr ⟨p, rfl, hpmem, hpcid⟩⟩
        · rw [colValue_phone, beq_iff_eq]
          show Option.map _ (some p) = some fv
          rw [Option.map_some', hpv]
  have hsub : ∀ c ∈ res, c ∈ db.clients := fun c hc => ((hiff c).mp hc).1
  have hresnd : res.Nodup := by
    rw [hres2]
    exact List.nodup_dedup _
  refine ⟨hiff, ?_⟩
  exact List.Nodup.map_on
    (fun x hx y hy hxy =>
      List.inj_on_of_nodup_map hnd (hsub x hx) (hsub y hy) hxy)
    hresnd

/-- C9 witness: searching dbTwo by phone "555-1234" — client 1 owns two
matching phone rows yet appears once; the theorem's characterization and
no-duplicate conclusion at this concrete input. -/
theorem findClient_match_dedup_witness :
    ((⟨1, "V", "P", none⟩ : ClientRow) ∈ ([⟨1, "V", "P", none⟩] : List ClientRow) ↔
      (⟨1, "V", "P", none⟩ : ClientRow) ∈ dbTwo.clients ∧
        fieldMatches dbTwo "phone" "555-1234" ⟨1, "V", "P", none⟩) ∧
    (([⟨1, "V", "P", none⟩] : List ClientRow).map (fun c => c.client_id)).Nodup := by
  have h := findClient_match_dedup dbTwo "телефон" "555-1234" "phone"
    [⟨1, "V", "P", none⟩] (by decide) (by decide) (by decide)
  exact ⟨h.1 ⟨1, "V", "P", none⟩, h.2⟩
